import Mathlib

/-!
# Smart Flashcard backend — verification of the specification

The repository ships the React client (`frontend/src/App.jsx`) together with
documentation of the FastAPI backend; the backend source itself is not in the
tree.  The backend components (Subject Classifier, Flashcard Store, Mix
Selector) are therefore modelled from the specification, faithfully following
its words; the client-side behaviour (`handleChange`, `handleSubmit`,
`handleGetFlashcards`) is translated directly from `App.jsx`.

Strings are modelled through their character lists; `toLowerCase` models the
JavaScript `String.prototype.toLowerCase` (per-character lowering, which is
what it does on the ASCII identifiers at issue).
-/

namespace Flashcards


/-- The closed subject enumeration of §3 of the spec. -/
inductive Subject : Type
  | Mathematics
  | Physics
  | Chemistry
  | Biology
  | Other
  deriving DecidableEq, Repr

/-- The members of the closed enumeration, as a list. -/
def subjectUniverse : List Subject :=
  [Subject.Mathematics, Subject.Physics, Subject.Chemistry,
   Subject.Biology, Subject.Other]

/-- Per-character lowercasing of a string; models the case normalization used
by both the client (`e.target.value.toLowerCase()`) and the backend
(`student_id` lowercased before storage/lookup). -/
def toLowerCase (s : String) : String :=
  ⟨s.data.map Char.toLower⟩

/-- Whitespace trimming on both ends, over the character list. -/
def trimWs (s : String) : String :=
  ⟨((s.data.dropWhile Char.isWhitespace).reverse.dropWhile
      Char.isWhitespace).reverse⟩

/-- Boolean test that `pre` is a leading substring of `s`. -/
def strStartsWith (s pre : String) : Bool :=
  pre.data.isPrefixOf s.data

/-- Modelled from the spec: the allowed subject names of §4.1 step 3, in the
priority order Mathematics, Physics, Chemistry, Biology, paired with the
Subject they denote.  (The backend classifier source is not in the tree.) -/
def subjectNames : List (String × Subject) :=
  [("mathematics", Subject.Mathematics),
   ("physics", Subject.Physics),
   ("chemistry", Subject.Chemistry),
   ("biology", Subject.Biology)]

/-- Modelled from the spec: §4.1 step 3 response parsing — trim whitespace,
case-fold, then accept an exact case-insensitive match or a response that
starts with an allowed name, in priority order; otherwise `Other`. -/
def parseSubject (raw : String) : Subject :=
  let t := toLowerCase (trimWs raw)
  match subjectNames.find? (fun p => t == p.1 || strStartsWith t p.1) with
  | some p => p.2
  | none => Subject.Other

/-- Modelled from the spec: `classify(question, answer) -> Subject` (§4.1).
The external service interaction is abstracted into its observable outcome:
`none` when the service is unreachable after the bounded retries, `some raw`
when a (possibly malformed or empty) response text was obtained.  The result
is always a `Subject`; unreachability falls back to `Other` (§4.1 step 4). -/
def classify (response : Option String) : Subject :=
  match response with
  | none => Subject.Other
  | some raw => parseSubject raw

/-- A second rendering of §4.1 steps 3–4 written directly as the spec words
them: a cascade checking, in the order Mathematics, Physics, Chemistry,
Biology, an exact case-insensitive match or a leading match on the trimmed,
case-folded text, defaulting to `Other`.  Used to compare `classify` against
the spec sentence by sentence. -/
def classifySpecCascade (raw : String) : Subject :=
  let t := toLowerCase (trimWs raw)
  if t == "mathematics" || strStartsWith t "mathematics" then Subject.Mathematics
  else if t == "physics" || strStartsWith t "physics" then Subject.Physics
  else if t == "chemistry" || strStartsWith t "chemistry" then Subject.Chemistry
  else if t == "biology" || strStartsWith t "biology" then Subject.Biology
  else Subject.Other

/-- The Flashcard entity of §3: opaque unique `id`, case-normalized
`student_id`, question and answer text, and exactly one `Subject` assigned at
creation.  (`created_at` is used only for tie-breaking and is subsumed by
record order in the model.) -/
structure Flashcard : Type where
  id : Nat
  student_id : String
  question : String
  answer : String
  subject : Subject
  deriving DecidableEq, Repr

/-- Two records carry the same (`student_id`, `question`, `answer`) triple. -/
def sameTriple (c d : Flashcard) : Prop :=
  c.student_id = d.student_id ∧ c.question = d.question ∧ c.answer = d.answer

instance : DecidablePred fun p : Flashcard × Flashcard => sameTriple p.1 p.2 :=
  fun _ => by unfold sameTriple; infer_instance

instance (c d : Flashcard) : Decidable (sameTriple c d) := by
  unfold sameTriple; infer_instance

/-- Modelled from the spec: the Flashcard Store (§4.2, §6) — a single durable
collection of records plus the id counter that assigns fresh, never reused
ids.  (The backend storage source is not in the tree.) -/
structure Store : Type where
  records : List Flashcard
  nextId : Nat
  deriving DecidableEq, Repr

/-- The store as it starts: no records. -/
def emptyStore : Store := ⟨[], 0⟩

/-- The Boolean duplicate test used by the store for a given normalized key
triple. -/
def matchesTriple (key q a : String) (c : Flashcard) : Bool :=
  c.student_id == key && c.question == q && c.answer == a

/-- Modelled from the spec: the duplicate lookup of §4.2 — an existing record
with the identical (`student_id`, `question`, `answer`) triple, after the
case normalization of §6. -/
def findTriple (st : Store) (sid q a : String) : Option Flashcard :=
  st.records.find? (matchesTriple (toLowerCase sid) q a)

/-- Modelled from the spec: `insert(student_id, question, answer, subject) ->
(Flashcard, isNew)` (§4.2).  The check-then-insert is the spec's single
atomic step: if the triple exists the pre-existing record is returned with
`isNew = false` and no write happens; otherwise a fresh record is appended.
`student_id` is lowercased before storage (§6). -/
def insert (st : Store) (sid q a : String) (subj : Subject) :
    (Flashcard × Bool) × Store :=
  match findTriple st sid q a with
  | some c => ((c, false), st)
  | none =>
      let c : Flashcard := ⟨st.nextId, toLowerCase sid, q, a, subj⟩
      ((c, true), ⟨st.records ++ [c], st.nextId + 1⟩)

/-- Modelled from the spec: `listFor(student_id)` (§4.2) — all records of the
student, with `student_id` lowercased before lookup (§6). -/
def listFor (st : Store) (sid : String) : List Flashcard :=
  st.records.filter (fun c => c.student_id == toLowerCase sid)

/-- Number of stored records carrying the normalized triple. -/
def countTriple (st : Store) (sid q a : String) : Nat :=
  st.records.countP (matchesTriple (toLowerCase sid) q a)

/-- Modelled from the spec: N create calls with an identical triple, §5/§8.
Because the check-then-insert is atomic (a single step of the model), any
interleaving of N concurrent calls is one of the N! sequential orders, and
for identical arguments all orders are this iteration.  Returns the `isNew`
flag observed by each call and the final store. -/
def insertN : Nat → Store → String → String → String → Subject →
    (List Bool × Store)
  | 0, st, _, _, _, _ => ([], st)
  | n + 1, st, sid, q, a, subj =>
      let r := insert st sid q a subj
      let rest := insertN n r.2 sid q a subj
      (r.1.2 :: rest.1, rest.2)

/-- Modelled from the spec: request-level create (§6 POST /flashcard, §7).
Validation rejects an empty `student_id`, `question` or `answer` with a
request error and performs no write; otherwise the store insert runs. -/
def createFlashcard (st : Store) (sid q a : String) (subj : Subject) :
    Except String (Flashcard × Bool) × Store :=
  if sid = "" ∨ q = "" ∨ a = "" then
    (Except.error "validation error", st)
  else
    let r := insert st sid q a subj
    (Except.ok r.1, r.2)

/-- Length of the longest group: the number of round-robin passes needed to
exhaust all groups. -/
def maxLen : List (List Flashcard) → Nat
  | [] => 0
  | g :: gs => max g.length (maxLen gs)

/-- One round-robin pass (§4.3 step 2): the front card of each non-empty
group, in group order. -/
def headsOf (groups : List (List Flashcard)) : List Flashcard :=
  groups.filterMap List.head?

/-- The groups after one pass has consumed each front card. -/
def tailsOf (groups : List (List Flashcard)) : List (List Flashcard) :=
  groups.map List.tail

/-- Modelled from the spec: round-robin consumption (§4.3 step 2) — repeated
passes over the subject groups, one card from the front of each non-empty
group per pass, until all groups are exhausted; the caller truncates at
`limit`.  The pass count is the fuel. -/
def roundRobin : List (List Flashcard) → Nat → List Flashcard
  | _, 0 => []
  | groups, n + 1 => headsOf groups ++ roundRobin (tailsOf groups) n

/-- Modelled from the spec: the partition of §4.3 step 1 — the student's
cards grouped by subject, preserving encounter order inside a group; `order`
is the subject-visit order, the one external randomness draw (shuffled once
per call, injected for testability per §9). -/
def groupsFor (cards : List Flashcard) (order : List Subject) :
    List (List Flashcard) :=
  order.map (fun s => cards.filter (fun c => decide (c.subject = s)))

/-- Modelled from the spec: `selectMixed(flashcards, limit)` (§4.3) — round
robin over the subject groups visited in `order`, truncated at `limit`.
(The backend selector source is not in the tree.) -/
def selectMixed (cards : List Flashcard) (limit : Nat)
    (order : List Subject) : List Flashcard :=
  (roundRobin (groupsFor cards order) (maxLen (groupsFor cards order))).take limit

/-- The store invariant of §3: no two records share the
(`student_id`, `question`, `answer`) triple, and every stored subject is a
member of the closed enumeration. -/
def StoreInv (st : Store) : Prop :=
  st.records.Pairwise (fun x y => ¬ sameTriple x y) ∧
  ∀ c ∈ st.records, c.subject ∈ subjectUniverse

/-- The store states reachable from the empty store through the two
operations: `insert` (the only mutation) and reads (which change nothing). -/
inductive Reachable : Store → Prop
  | init : Reachable emptyStore
  | step (st : Store) (sid q a : String) (subj : Subject) :
      Reachable st → Reachable (insert st sid q a subj).2

/-- The create-flashcard form state of `App.jsx` (lines 99–103): the three
text fields, all starting empty. -/
structure FormData : Type where
  student_id : String
  question : String
  answer : String
  deriving DecidableEq, Repr

/-- The three field names the form's inputs carry in `name=...`. -/
inductive FieldName : Type
  | student_id
  | question
  | answer
  deriving DecidableEq, Repr

/-- The initial form state and the state restored after a successful
submission (`App.jsx` lines 99–103 and 114). -/
def initialForm : FormData := ⟨"", "", ""⟩

/-- Translated from `handleChange` in `App.jsx` (lines 122–127): every change
event stores `e.target.value.toLowerCase()` into the field named by the
event target — the same lowercasing for all three fields. -/
def handleChange (fd : FormData) (f : FieldName) (v : String) : FormData :=
  match f with
  | FieldName.student_id => { fd with student_id := toLowerCase v }
  | FieldName.question => { fd with question := toLowerCase v }
  | FieldName.answer => { fd with answer := toLowerCase v }

/-- Translated from `handleSubmit` in `App.jsx` (lines 107–120): if any field
is empty after trimming, nothing is sent; otherwise the request body posted
to the backend is the form state itself. -/
def handleSubmit (fd : FormData) : Option FormData :=
  if trimWs fd.student_id = "" ∨ trimWs fd.question = "" ∨
      trimWs fd.answer = "" then
    none
  else
    some fd

/-- The form states the client can be in: the initial state and anything
produced from it by change events. -/
inductive FormReachable : FormData → Prop
  | init : FormReachable initialForm
  | change (fd : FormData) (f : FieldName) (v : String) :
      FormReachable fd → FormReachable (handleChange fd f v)

/-- A string that is the lowercase image of some raw input — i.e. what
`toLowerCase` can produce. -/
def LowercaseImage (s : String) : Prop := ∃ r : String, s = toLowerCase r

/-- C1: classification always lands in the closed subject set. -/
theorem classify_mem_subjectUniverse (response : Option String) :
    classify response ∈ subjectUniverse := by
  cases h : classify response <;> simp [subjectUniverse]

/-- C6: the parser accepts, on the trimmed case-folded text, an exact or
leading match in priority order Mathematics, Physics, Chemistry, Biology, and
yields `Other` on unreachability, on an empty response, and on no match. -/
theorem classify_parses_as_spec :
    classify none = Subject.Other ∧
    classify (some "") = Subject.Other ∧
    ∀ raw : String, classify (some raw) = classifySpecCascade raw := by
  refine ⟨rfl, by decide, ?_⟩
  intro raw
  unfold classify parseSubject classifySpecCascade subjectNames
  simp only [List.find?]
  cases hm : (toLowerCase (trimWs raw) == "mathematics"
      || strStartsWith (toLowerCase (trimWs raw)) "mathematics") <;>
    cases hp : (toLowerCase (trimWs raw) == "physics"
      || strStartsWith (toLowerCase (trimWs raw)) "physics") <;>
    cases hc : (toLowerCase (trimWs raw) == "chemistry"
      || strStartsWith (toLowerCase (trimWs raw)) "chemistry") <;>
    cases hb : (toLowerCase (trimWs raw) == "biology"
      || strStartsWith (toLowerCase (trimWs raw)) "biology") <;>
    simp [hm, hp, hc, hb]

theorem length_le_maxLen {g : List Flashcard} {groups : List (List Flashcard)}
    (h : g ∈ groups) : g.length ≤ maxLen groups := by
  induction groups with
  | nil => cases h
  | cons g0 gs ih =>
      rcases List.mem_cons.mp h with h0 | h0
      · subst h0; exact Nat.le_max_left _ _
      · exact Nat.le_trans (ih h0) (Nat.le_max_right _ _)

theorem maxLen_tailsOf_le {groups : List (List Flashcard)} {n : Nat}
    (h : maxLen groups ≤ n + 1) : maxLen (tailsOf groups) ≤ n := by
  induction groups with
  | nil => exact Nat.zero_le n
  | cons g gs ih =>
      simp only [maxLen, tailsOf, List.map_cons, Nat.max_le] at h ⊢
      exact ⟨by simpa using Nat.le_trans (Nat.sub_le_sub_right h.1 1) (by omega),
             ih h.2⟩

theorem headsOf_cons_nil (gs : List (List Flashcard)) :
    headsOf ([] :: gs) = headsOf gs := rfl

theorem headsOf_cons_cons (x : Flashcard) (t : List Flashcard)
    (gs : List (List Flashcard)) :
    headsOf ((x :: t) :: gs) = x :: headsOf gs := rfl

theorem tailsOf_cons (g : List Flashcard) (gs : List (List Flashcard)) :
    tailsOf (g :: gs) = g.tail :: tailsOf gs := rfl

theorem flatten_perm_heads_append_tails (groups : List (List Flashcard)) :
    List.Perm groups.flatten (headsOf groups ++ (tailsOf groups).flatten) := by
  induction groups with
  | nil => rfl
  | cons g gs ih =>
      cases g with
      | nil =>
          rw [tailsOf_cons, headsOf_cons_nil]
          simpa using ih
      | cons x t =>
          rw [tailsOf_cons, headsOf_cons_cons, List.flatten_cons,
            List.flatten_cons, List.tail_cons, List.cons_append,
            List.cons_append]
          refine List.Perm.cons x ?_
          refine (List.Perm.append_left t ih).trans ?_
          rw [← List.append_assoc, ← List.append_assoc]
          exact List.Perm.append_right _ List.perm_append_comm

theorem roundRobin_perm_flatten :
    ∀ (n : Nat) (groups : List (List Flashcard)), maxLen groups ≤ n →
      List.Perm (roundRobin groups n) groups.flatten := by
  intro n
  induction n with
  | zero =>
      intro groups h
      have hall : ∀ g ∈ groups, g = [] := by
        intro g hg
        have := length_le_maxLen hg
        have : g.length = 0 := by omega
        exact List.length_eq_zero.mp this
      have hfl : groups.flatten = [] := by
        apply List.flatten_eq_nil_iff.mpr
        intro g hg; exact hall g hg
      simp [roundRobin, hfl]
  | succ n ih =>
      intro groups h
      have h2 := maxLen_tailsOf_le h
      have step : roundRobin groups (n + 1)
          = headsOf groups ++ roundRobin (tailsOf groups) n := rfl
      rw [step]
      exact (List.Perm.append_left _ (ih _ h2)).trans
        (flatten_perm_heads_append_tails groups).symm

theorem filter_subject_restrict (cards : List Flashcard) {s t : Subject}
    (hne : t ≠ s) :
    cards.filter (fun c => decide (c.subject = t)) =
      (cards.filter (fun c => !decide (c.subject = s))).filter
        (fun c => decide (c.subject = t)) := by
  induction cards with
  | nil => rfl
  | cons c cs ih =>
      by_cases ht : c.subject = t
      · have hs : ¬ c.subject = s := fun h => hne (ht ▸ h ▸ rfl)
        have hdt : (fun x : Flashcard => decide (x.subject = t)) c = true := by
          simpa using ht
        have hds : (fun x : Flashcard => !decide (x.subject = s)) c = true := by
          simpa using hs
        rw [List.filter_cons_of_pos (p := fun x : Flashcard => decide (x.subject = t)) hdt,
          List.filter_cons_of_pos (p := fun x : Flashcard => !decide (x.subject = s)) hds,
          List.filter_cons_of_pos (p := fun x : Flashcard => decide (x.subject = t)) hdt, ih]
      · have hdt : ¬ ((fun x : Flashcard => decide (x.subject = t)) c = true) := by
          simpa using ht
        by_cases hs : c.subject = s
        · have hds : ¬ ((fun x : Flashcard => !decide (x.subject = s)) c = true) := by
            simpa using hs
          rw [List.filter_cons_of_neg (p := fun x : Flashcard => decide (x.subject = t)) hdt,
            List.filter_cons_of_neg (p := fun x : Flashcard => !decide (x.subject = s)) hds, ih]
        · have hds : (fun x : Flashcard => !decide (x.subject = s)) c = true := by
            simpa using hs
          rw [List.filter_cons_of_neg (p := fun x : Flashcard => decide (x.subject = t)) hdt,
            List.filter_cons_of_pos (p := fun x : Flashcard => !decide (x.subject = s)) hds,
            List.filter_cons_of_neg (p := fun x : Flashcard => decide (x.subject = t)) hdt, ih]

theorem groupsFor_restrict (cards : List Flashcard) {s : Subject}
    {rest : List Subject} (hs : s ∉ rest) :
    groupsFor cards rest =
      groupsFor (cards.filter (fun c => !decide (c.subject = s))) rest := by
  unfold groupsFor
  apply List.map_congr_left
  intro t ht
  exact filter_subject_restrict cards (fun h => hs (h ▸ ht))

theorem groupsFor_flatten_perm :
    ∀ (order : List Subject) (cards : List Flashcard), order.Nodup →
      (∀ c ∈ cards, c.subject ∈ order) →
      List.Perm (groupsFor cards order).flatten cards := by
  intro order
  induction order with
  | nil =>
      intro cards _ hcov
      have : cards = [] := by
        apply List.eq_nil_iff_forall_not_mem.mpr
        intro c hc
        exact absurd (hcov c hc) (List.not_mem_nil _)
      simp [groupsFor, this]
  | cons s rest ih =>
      intro cards hnd hcov
      have hs : s ∉ rest := (List.nodup_cons.mp hnd).1
      have hnd2 : rest.Nodup := (List.nodup_cons.mp hnd).2
      have hstep : groupsFor cards (s :: rest)
          = cards.filter (fun c => decide (c.subject = s)) ::
            groupsFor cards rest := rfl
      rw [hstep, List.flatten_cons, groupsFor_restrict cards hs]
      have hcov2 : ∀ c ∈ cards.filter (fun c => !decide (c.subject = s)),
          c.subject ∈ rest := by
        intro c hc
        have hmem := List.mem_filter.mp hc
        have hne : ¬ c.subject = s := by
          have := hmem.2
          simpa using this
        have := hcov c hmem.1
        rcases List.mem_cons.mp this with h | h
        · exact absurd h hne
        · exact h
      exact (List.Perm.append_left _ (ih _ hnd2 hcov2)).trans
        (List.filter_append_perm _ cards)

theorem headsOf_groupsFor_map_subject :
    ∀ (order : List Subject) (cards : List Flashcard),
      (∀ s ∈ order, ∃ c ∈ cards, c.subject = s) →
      (headsOf (groupsFor cards order)).map Flashcard.subject = order := by
  intro order
  induction order with
  | nil => intro cards _; rfl
  | cons s rest ih =>
      intro cards hinh
      obtain ⟨c, hc, hcs⟩ := hinh s (List.mem_cons_self s rest)
      have hcf : c ∈ cards.filter (fun c => decide (c.subject = s)) :=
        List.mem_filter.mpr ⟨hc, by simpa using hcs⟩
      have hstep : groupsFor cards (s :: rest)
          = cards.filter (fun c => decide (c.subject = s)) ::
            groupsFor cards rest := rfl
      rw [hstep]
      cases hg : cards.filter (fun c => decide (c.subject = s)) with
      | nil => rw [hg] at hcf; cases hcf
      | cons c0 g =>
          have hc0 : c0 ∈ cards.filter (fun c => decide (c.subject = s)) := by
            rw [hg]; exact List.mem_cons_self c0 g
          have hc0s : c0.subject = s := by
            have := (List.mem_filter.mp hc0).2
            simpa using this
          rw [headsOf_cons_cons, List.map_cons, hc0s,
            ih cards (fun t ht => hinh t (List.mem_cons_of_mem s ht))]

/-- C7: when the student's whole set is smaller than the limit, the selector
returns all of the cards (a permutation of the input: nothing missing, no
duplicates) and no error; in particular an empty input yields an empty
result. -/
theorem selectMixed_returns_all_when_small
    (cards : List Flashcard) (limit : Nat) (order : List Subject)
    (hnd : order.Nodup)
    (hcov : ∀ c ∈ cards, c.subject ∈ order)
    (hlt : cards.length < limit) :
    List.Perm (selectMixed cards limit order) cards := by
  have hperm : List.Perm
      (roundRobin (groupsFor cards order) (maxLen (groupsFor cards order)))
      cards :=
    (roundRobin_perm_flatten _ _ (Nat.le_refl _)).trans
      (groupsFor_flatten_perm order cards hnd hcov)
  have hlen : (roundRobin (groupsFor cards order)
      (maxLen (groupsFor cards order))).length = cards.length :=
    hperm.length_eq
  unfold selectMixed
  rw [List.take_of_length_le (by omega)]
  exact hperm

/-- C2: with cards in the k distinct subjects listed by the visit order and
`limit >= k`, the subjects of the first k selected cards are exactly the k
subjects, one each, in visit order — every available subject appears before
any subject repeats. -/
theorem selectMixed_prefix_covers_subjects
    (cards : List Flashcard) (limit : Nat) (order : List Subject)
    (hnd : order.Nodup)
    (hcov : ∀ c ∈ cards, c.subject ∈ order)
    (hinh : ∀ s ∈ order, ∃ c ∈ cards, c.subject = s)
    (hlim : order.length ≤ limit) :
    ((selectMixed cards limit order).take order.length).map
      Flashcard.subject = order := by
  cases horder : order with
  | nil => simp [horder]
  | cons s rest =>
      rw [← horder]
      have hmap : (headsOf (groupsFor cards order)).map Flashcard.subject
          = order := headsOf_groupsFor_map_subject order cards hinh
      have hhlen : (headsOf (groupsFor cards order)).length = order.length := by
        have := congrArg List.length hmap
        simpa using this
      obtain ⟨c, hc, hcs⟩ := hinh s (by rw [horder]; exact List.mem_cons_self s rest)
      have hgrp : cards.filter (fun c => decide (c.subject = s)) ∈
          groupsFor cards order := by
        unfold groupsFor
        exact List.mem_map_of_mem _ (by rw [horder]; exact List.mem_cons_self s rest)
      have hcf : c ∈ cards.filter (fun c => decide (c.subject = s)) :=
        List.mem_filter.mpr ⟨hc, by simpa using hcs⟩
      have hpos : 1 ≤ maxLen (groupsFor cards order) := by
        have h1 : 1 ≤ (cards.filter (fun c => decide (c.subject = s))).length :=
          List.length_pos.mpr (fun h => by rw [h] at hcf; cases hcf)
        exact Nat.le_trans h1 (length_le_maxLen hgrp)
      obtain ⟨m, hm⟩ : ∃ m, maxLen (groupsFor cards order) = m + 1 :=
        ⟨maxLen (groupsFor cards order) - 1, by omega⟩
      unfold selectMixed
      rw [hm, List.take_take, Nat.min_eq_left hlim]
      have hrr : roundRobin (groupsFor cards order) (m + 1)
          = headsOf (groupsFor cards order) ++
            roundRobin (tailsOf (groupsFor cards order)) m := rfl
      rw [hrr, List.take_left' hhlen, hmap]

theorem subject_mem_universe (s : Subject) : s ∈ subjectUniverse := by
  cases s <;> simp [subjectUniverse]

theorem insert_found {st : Store} {sid q a : String} {subj : Subject}
    {c : Flashcard} (h : findTriple st sid q a = some c) :
    insert st sid q a subj = ((c, false), st) := by
  unfold insert; rw [h]

theorem insert_new {st : Store} {sid q a : String} {subj : Subject}
    (h : findTriple st sid q a = none) :
    insert st sid q a subj =
      ((⟨st.nextId, toLowerCase sid, q, a, subj⟩, true),
       ⟨st.records ++ [⟨st.nextId, toLowerCase sid, q, a, subj⟩],
        st.nextId + 1⟩) := by
  unfold insert; rw [h]

theorem matchesTriple_newcard (key q a : String) (n : Nat) (subj : Subject) :
    matchesTriple key q a ⟨n, key, q, a, subj⟩ = true := by
  simp [matchesTriple]

theorem sameTriple_of_matches {key q a : String} {x y : Flashcard}
    (hx : matchesTriple key q a x = true)
    (hy : matchesTriple key q a y = true) : sameTriple x y := by
  simp only [matchesTriple, Bool.and_eq_true, beq_iff_eq] at hx hy
  obtain ⟨⟨hx1, hx2⟩, hx3⟩ := hx
  obtain ⟨⟨hy1, hy2⟩, hy3⟩ := hy
  exact ⟨hx1.trans hy1.symm, hx2.trans hy2.symm, hx3.trans hy3.symm⟩

theorem matches_of_sameTriple_newcard {key q a : String} {x : Flashcard}
    {n : Nat} {subj : Subject}
    (h : sameTriple x ⟨n, key, q, a, subj⟩) :
    matchesTriple key q a x = true := by
  obtain ⟨h1, h2, h3⟩ := h
  simp [matchesTriple, h1, h2, h3]

theorem findTriple_after_insert (st : Store) (sid q a : String)
    (subj : Subject) :
    findTriple (insert st sid q a subj).2 sid q a
      = some (insert st sid q a subj).1.1 := by
  cases hf : findTriple st sid q a with
  | some c => rw [insert_found hf]; exact hf
  | none =>
      rw [insert_new hf]
      unfold findTriple at hf ⊢
      simp only [List.find?_append, hf, Option.none_or]
      simp [List.find?, matchesTriple_newcard]

theorem countP_matches_le_one {key q a : String} {l : List Flashcard}
    (h : l.Pairwise (fun x y => ¬ sameTriple x y)) :
    l.countP (matchesTriple key q a) ≤ 1 := by
  induction l with
  | nil => exact Nat.zero_le 1
  | cons c cs ih =>
      obtain ⟨h1, h2⟩ := List.pairwise_cons.mp h
      by_cases hp : matchesTriple key q a c = true
      · have hz : cs.countP (matchesTriple key q a) = 0 := by
          apply List.countP_eq_zero.mpr
          intro y hy hyp
          exact h1 y hy (sameTriple_of_matches hp hyp)
        rw [List.countP_cons_of_pos (matchesTriple key q a) _ hp, hz]
      · rw [List.countP_cons_of_neg (matchesTriple key q a) _ hp]
        exact ih h2

theorem countTriple_after_insert (st : Store) (sid q a : String)
    (subj : Subject)
    (hinv : st.records.Pairwise (fun x y => ¬ sameTriple x y)) :
    countTriple (insert st sid q a subj).2 sid q a = 1 := by
  cases hf : findTriple st sid q a with
  | some c =>
      have hst : (insert st sid q a subj).2 = st := by rw [insert_found hf]
      rw [hst]
      unfold countTriple
      have hpos : 0 < st.records.countP (matchesTriple (toLowerCase sid) q a) := by
        apply List.countP_pos_iff.mpr
        exact ⟨c, List.mem_of_find?_eq_some hf, List.find?_some hf⟩
      have hle := @countP_matches_le_one (toLowerCase sid) q a st.records hinv
      omega
  | none =>
      rw [insert_new hf]
      unfold countTriple
      unfold findTriple at hf
      have hz : st.records.countP (matchesTriple (toLowerCase sid) q a) = 0 :=
        List.countP_eq_zero.mpr (List.find?_eq_none.mp hf)
      simp [hz, matchesTriple_newcard]

/-- C3: create is idempotent — a second insert of the identical triple
returns the record of the first call with `isNew = false`, changes the store
not at all, and leaves exactly one stored record carrying the triple. -/
theorem insert_idempotent (st : Store) (sid q a : String)
    (subj subj' : Subject)
    (hinv : st.records.Pairwise (fun x y => ¬ sameTriple x y)) :
    (insert (insert st sid q a subj).2 sid q a subj').1.1
        = (insert st sid q a subj).1.1 ∧
    (insert (insert st sid q a subj).2 sid q a subj').1.2 = false ∧
    (insert (insert st sid q a subj).2 sid q a subj').2
        = (insert st sid q a subj).2 ∧
    countTriple (insert (insert st sid q a subj).2 sid q a subj').2 sid q a
        = 1 := by
  have hafter := findTriple_after_insert st sid q a subj
  rw [insert_found hafter]
  exact ⟨rfl, rfl, rfl, countTriple_after_insert st sid q a subj hinv⟩

theorem insertN_absorbed (m : Nat) (st : Store) (sid q a : String)
    (subj : Subject) {c : Flashcard}
    (h : findTriple st sid q a = some c) :
    insertN m st sid q a subj = (List.replicate m false, st) := by
  induction m with
  | zero => rfl
  | succ k ih =>
      show (let r := insert st sid q a subj
            let rest := insertN k r.2 sid q a subj
            ((r.1.2 :: rest.1, rest.2) : List Bool × Store))
          = (List.replicate (k + 1) false, st)
      rw [insert_found h]
      simp only [ih]
      rfl

/-- C4: N create calls with an identical triple, starting from a store not
holding the triple, produce exactly one `isNew = true` outcome and exactly
one stored record for the triple — the atomic check-then-insert makes every
interleaving a sequential iteration, and in all of them exactly one call
wins. -/
theorem insertN_exactly_one_new (n : Nat) (st : Store) (sid q a : String)
    (subj : Subject)
    (habs : findTriple st sid q a = none) (hn : 1 ≤ n) :
    (insertN n st sid q a subj).1.count true = 1 ∧
    countTriple (insertN n st sid q a subj).2 sid q a = 1 := by
  obtain ⟨m, rfl⟩ : ∃ m, n = m + 1 := ⟨n - 1, by omega⟩
  have hstep : insertN (m + 1) st sid q a subj
      = ((insert st sid q a subj).1.2 ::
          (insertN m (insert st sid q a subj).2 sid q a subj).1,
         (insertN m (insert st sid q a subj).2 sid q a subj).2) := rfl
  have hafter := findTriple_after_insert st sid q a subj
  have habsorbed := insertN_absorbed m (insert st sid q a subj).2 sid q a subj
    hafter
  have hnewflag : (insert st sid q a subj).1.2 = true := by
    rw [insert_new habs]
  constructor
  · rw [hstep, habsorbed, hnewflag]
    simp [List.count_cons, List.count_replicate]
  · rw [hstep, habsorbed]
    unfold countTriple
    rw [insert_new habs]
    unfold findTriple at habs
    have hz : st.records.countP (matchesTriple (toLowerCase sid) q a) = 0 :=
      List.countP_eq_zero.mpr (List.find?_eq_none.mp habs)
    simp [hz, matchesTriple_newcard]

theorem insert_preserves_inv (st : Store) (sid q a : String) (subj : Subject)
    (h : StoreInv st) : StoreInv (insert st sid q a subj).2 := by
  cases hf : findTriple st sid q a with
  | some c => rw [insert_found hf]; exact h
  | none =>
      rw [insert_new hf]
      constructor
      · apply List.pairwise_append.mpr
        refine ⟨h.1, List.pairwise_singleton _ _, ?_⟩
        intro x hx y hy
        have hy1 : y = (⟨st.nextId, toLowerCase sid, q, a, subj⟩ : Flashcard) := by
          simpa using hy
        subst hy1
        intro hsame
        unfold findTriple at hf
        exact (List.find?_eq_none.mp hf x hx)
          (matches_of_sameTriple_newcard hsame)
      · intro c hc
        rcases List.mem_append.mp hc with h1 | h1
        · exact h.2 c h1
        · have : c = (⟨st.nextId, toLowerCase sid, q, a, subj⟩ : Flashcard) := by
            simpa using h1
          rw [this]
          exact subject_mem_universe subj

/-- C5: in every reachable store state no two records share the
(`student_id`, `question`, `answer`) triple and every stored subject belongs
to the Subject enumeration; `insert` is the only mutation and preserves the
invariant, reads change nothing. -/
theorem reachable_store_invariant (st : Store) (h : Reachable st) :
    StoreInv st := by
  induction h with
  | init =>
      exact ⟨List.Pairwise.nil, by intro c hc; cases hc⟩
  | step st sid q a subj _ ih =>
      exact insert_preserves_inv st sid q a subj ih

/-- C8: `student_id` is lowercased before both storage and lookup, so two
ids differing only in letter case address the same stored bucket: lookup,
duplicate detection and insertion behave identically for them. -/
theorem studentId_case_insensitive (st : Store) (sid1 sid2 q a : String)
    (subj : Subject) (h : toLowerCase sid1 = toLowerCase sid2) :
    listFor st sid1 = listFor st sid2 ∧
    findTriple st sid1 q a = findTriple st sid2 q a ∧
    insert st sid1 q a subj = insert st sid2 q a subj := by
  unfold listFor findTriple insert findTriple
  rw [h]
  exact ⟨rfl, rfl, rfl⟩

/-- C9: a create request with an empty `student_id`, `question` or `answer`
is answered with a request error and performs no write: the store is
returned unchanged. -/
theorem createFlashcard_validation (st : Store) (sid q a : String)
    (subj : Subject) (h : sid = "" ∨ q = "" ∨ a = "") :
    (createFlashcard st sid q a subj).2 = st ∧
    ∃ msg, (createFlashcard st sid q a subj).1 = Except.error msg := by
  unfold createFlashcard
  rw [if_pos h]
  exact ⟨rfl, ⟨"validation error", rfl⟩⟩

theorem formReachable_lowercase (fd : FormData) (h : FormReachable fd) :
    LowercaseImage fd.student_id ∧ LowercaseImage fd.question ∧
    LowercaseImage fd.answer := by
  induction h with
  | init => exact ⟨⟨"", rfl⟩, ⟨"", rfl⟩, ⟨"", rfl⟩⟩
  | change fd f v _ ih =>
      cases f with
      | student_id => exact ⟨⟨v, rfl⟩, ih.2.1, ih.2.2⟩
      | question => exact ⟨ih.1, ⟨v, rfl⟩, ih.2.2⟩
      | answer => exact ⟨ih.1, ih.2.1, ⟨v, rfl⟩⟩

/-- C10: every request body `handleSubmit` sends is built from a form state
whose three fields were all stored through `handleChange`, so `student_id`,
`question` and `answer` are each the lowercase image of the text the user
typed — the case normalization hits the question and answer too, not only
the student id. -/
theorem submitted_fields_lowercased (fd body : FormData)
    (h : FormReachable fd) (hs : handleSubmit fd = some body) :
    LowercaseImage body.student_id ∧ LowercaseImage body.question ∧
    LowercaseImage body.answer := by
  have hbody : body = fd := by
    unfold handleSubmit at hs
    by_cases hc : trimWs fd.student_id = "" ∨ trimWs fd.question = "" ∨
        trimWs fd.answer = ""
    · rw [if_pos hc] at hs; cases hs
    · rw [if_neg hc] at hs
      exact (Option.some.injEq _ _ ▸ hs).symm
  rw [hbody]
  exact formReachable_lowercase fd h

/-- Witness for C2 at a concrete student set: subjects Mathematics and
Physics, three cards, limit 3 — the first two selected cards show exactly the
two subjects. -/
theorem selectMixed_prefix_covers_subjects_witness :
    ([Subject.Mathematics, Subject.Physics] : List Subject).Nodup ∧
    (∀ c ∈ ([⟨1, "s", "q1", "a1", Subject.Physics⟩,
        ⟨2, "s", "q2", "a2", Subject.Mathematics⟩,
        ⟨3, "s", "q3", "a3", Subject.Physics⟩] : List Flashcard),
      c.subject ∈ [Subject.Mathematics, Subject.Physics]) ∧
    (∀ t ∈ [Subject.Mathematics, Subject.Physics],
      ∃ c ∈ ([⟨1, "s", "q1", "a1", Subject.Physics⟩,
        ⟨2, "s", "q2", "a2", Subject.Mathematics⟩,
        ⟨3, "s", "q3", "a3", Subject.Physics⟩] : List Flashcard),
        c.subject = t) ∧
    ([Subject.Mathematics, Subject.Physics] : List Subject).length ≤ 3 ∧
    ((selectMixed [⟨1, "s", "q1", "a1", Subject.Physics⟩,
        ⟨2, "s", "q2", "a2", Subject.Mathematics⟩,
        ⟨3, "s", "q3", "a3", Subject.Physics⟩] 3
        [Subject.Mathematics, Subject.Physics]).take 2).map Flashcard.subject
      = [Subject.Mathematics, Subject.Physics] :=
  ⟨by decide, by decide, by decide, by decide,
   selectMixed_prefix_covers_subjects
     [⟨1, "s", "q1", "a1", Subject.Physics⟩,
      ⟨2, "s", "q2", "a2", Subject.Mathematics⟩,
      ⟨3, "s", "q3", "a3", Subject.Physics⟩] 3
     [Subject.Mathematics, Subject.Physics]
     (by decide) (by decide) (by decide) (by decide)⟩

/-- Witness for C3 starting from the empty store. -/
theorem insert_idempotent_witness :
    emptyStore.records.Pairwise (fun x y => ¬ sameTriple x y) ∧
    ((insert (insert emptyStore "Stu01" "2+2?" "4" Subject.Mathematics).2
        "Stu01" "2+2?" "4" Subject.Other).1.1
      = (insert emptyStore "Stu01" "2+2?" "4" Subject.Mathematics).1.1 ∧
     (insert (insert emptyStore "Stu01" "2+2?" "4" Subject.Mathematics).2
        "Stu01" "2+2?" "4" Subject.Other).1.2 = false ∧
     (insert (insert emptyStore "Stu01" "2+2?" "4" Subject.Mathematics).2
        "Stu01" "2+2?" "4" Subject.Other).2
      = (insert emptyStore "Stu01" "2+2?" "4" Subject.Mathematics).2 ∧
     countTriple (insert (insert emptyStore "Stu01" "2+2?" "4"
        Subject.Mathematics).2 "Stu01" "2+2?" "4" Subject.Other).2
        "Stu01" "2+2?" "4" = 1) :=
  ⟨List.Pairwise.nil,
   insert_idempotent emptyStore "Stu01" "2+2?" "4" Subject.Mathematics
     Subject.Other List.Pairwise.nil⟩

/-- Witness for C4: three calls with one triple on the empty store. -/
theorem insertN_exactly_one_new_witness :
    findTriple emptyStore "s9" "Q" "A" = none ∧ 1 ≤ 3 ∧
    ((insertN 3 emptyStore "s9" "Q" "A" Subject.Biology).1.count true = 1 ∧
     countTriple (insertN 3 emptyStore "s9" "Q" "A" Subject.Biology).2
        "s9" "Q" "A" = 1) :=
  ⟨rfl, by decide,
   insertN_exactly_one_new 3 emptyStore "s9" "Q" "A" Subject.Biology rfl
     (by decide)⟩

/-- Witness for C5 at a store reached by one insert. -/
theorem reachable_store_invariant_witness :
    StoreInv (insert emptyStore "Ann" "what is benzene" "an arene"
      Subject.Chemistry).2 :=
  reachable_store_invariant _
    (Reachable.step emptyStore "Ann" "what is benzene" "an arene"
      Subject.Chemistry Reachable.init)

/-- Witness for C7: one card, limit 5 — the whole set comes back. -/
theorem selectMixed_returns_all_when_small_witness :
    ([Subject.Biology, Subject.Other] : List Subject).Nodup ∧
    (∀ c ∈ ([⟨7, "t", "qq", "aa", Subject.Other⟩] : List Flashcard),
      c.subject ∈ [Subject.Biology, Subject.Other]) ∧
    ([⟨7, "t", "qq", "aa", Subject.Other⟩] : List Flashcard).length < 5 ∧
    List.Perm (selectMixed [⟨7, "t", "qq", "aa", Subject.Other⟩] 5
      [Subject.Biology, Subject.Other]) [⟨7, "t", "qq", "aa", Subject.Other⟩] :=
  ⟨by decide, by decide, by decide,
   selectMixed_returns_all_when_small [⟨7, "t", "qq", "aa", Subject.Other⟩] 5
     [Subject.Biology, Subject.Other] (by decide) (by decide) (by decide)⟩

/-- Witness for C8 on two spellings of one student id. -/
theorem studentId_case_insensitive_witness :
    toLowerCase "Stu01" = toLowerCase "STU01" ∧
    (listFor emptyStore "Stu01" = listFor emptyStore "STU01" ∧
     findTriple emptyStore "Stu01" "q" "a"
       = findTriple emptyStore "STU01" "q" "a" ∧
     insert emptyStore "Stu01" "q" "a" Subject.Physics
       = insert emptyStore "STU01" "q" "a" Subject.Physics) :=
  ⟨by decide,
   studentId_case_insensitive emptyStore "Stu01" "STU01" "q" "a"
     Subject.Physics (by decide)⟩

/-- Witness for C9 on a request with an empty student id. -/
theorem createFlashcard_validation_witness :
    (("" : String) = "" ∨ ("Qv" : String) = "" ∨ ("Av" : String) = "") ∧
    ((createFlashcard emptyStore "" "Qv" "Av" Subject.Other).2 = emptyStore ∧
     ∃ msg, (createFlashcard emptyStore "" "Qv" "Av" Subject.Other).1
       = Except.error msg) :=
  ⟨Or.inl rfl,
   createFlashcard_validation emptyStore "" "Qv" "Av" Subject.Other
     (Or.inl rfl)⟩

/-- Witness for C10: typing mixed-case text into all three fields and
submitting sends the fully lowercased body. -/
theorem submitted_fields_lowercased_witness :
    handleSubmit (handleChange (handleChange (handleChange initialForm
        FieldName.student_id "S1") FieldName.question "Q?")
        FieldName.answer "A!") = some ⟨"s1", "q?", "a!"⟩ ∧
    (LowercaseImage (FormData.student_id ⟨"s1", "q?", "a!"⟩) ∧
     LowercaseImage (FormData.question ⟨"s1", "q?", "a!"⟩) ∧
     LowercaseImage (FormData.answer ⟨"s1", "q?", "a!"⟩)) :=
  ⟨by decide,
   submitted_fields_lowercased
     (handleChange (handleChange (handleChange initialForm
        FieldName.student_id "S1") FieldName.question "Q?")
        FieldName.answer "A!")
     ⟨"s1", "q?", "a!"⟩
     (FormReachable.change _ FieldName.answer "A!"
       (FormReachable.change _ FieldName.question "Q?"
         (FormReachable.change initialForm FieldName.student_id "S1"
           FormReachable.init)))
     (by decide)⟩

end Flashcards
